import Mathlib

/-!
Verification of the `sqlite-vector` crate
(`packages/agentdb/rust-crate/src/lib.rs`).

The embedding models:

* the record codec: `rmp_serde::to_vec` / `rmp_serde::from_slice` applied to
  `Vector { data: Vec<f32> }` serializes the struct as a one-element
  MessagePack array holding the array of f32 components, each component
  written as marker `0xca` followed by the four big-endian bytes of its
  32-bit pattern.  We represent an f32 component by its bit pattern, a
  `Nat < 2^32`, and a byte string by a `List Nat` of values `< 256`;
* the store: `VectorDB` holds the SQLite table `vectors` as a list of rows
  and the `dimension : Option<usize>` field.  All operations are transcribed
  from the source (`insert`, `get`, `search`, `delete`, `count`, `clear`);
  note that the source initializes `dimension` to `None` in `new` and never
  assigns it afterwards, which the embedding reproduces;
* the similarity kernels `scalar_cosine_similarity` and
  `simd_cosine_similarity`: transcribed over exact rational arithmetic with
  the square-root function left as an explicit parameter, so every theorem
  about them holds for any square-root implementation.
-/

namespace AgentDB

/-! ### Record codec -/

/-- The two big-endian bytes of a 16-bit value (MessagePack `array 16` length). -/
def beBytes2 (n : Nat) : List Nat :=
  [n / 256 % 256, n % 256]

/-- The four big-endian bytes of a 32-bit value (f32 payload, `array 32` length). -/
def beBytes4 (n : Nat) : List Nat :=
  [n / 2 ^ 24 % 256, n / 2 ^ 16 % 256, n / 2 ^ 8 % 256, n % 256]

/-- MessagePack array header: `fixarray` below 16 elements, `array 16` below
`2^16`, `array 32` otherwise. -/
def arrayHeader (len : Nat) : List Nat :=
  if len < 16 then [0x90 + len]
  else if len < 2 ^ 16 then 0xdc :: beBytes2 len
  else 0xdd :: beBytes4 len

/-- MessagePack encoding of one f32: marker `0xca` then the four big-endian
bytes of the bit pattern. -/
def encodeF32 (bits : Nat) : List Nat :=
  0xca :: beBytes4 bits

/-- `rmp_serde::to_vec(&vector)`: the struct `Vector` as a one-element array
whose element is the array of f32 components. -/
def encode (v : List Nat) : List Nat :=
  arrayHeader 1 ++ arrayHeader v.length ++ (v.map encodeF32).flatten

/-- Parse a MessagePack array header, returning the element count and the
remaining bytes; any other marker is a decoding failure. -/
def parseHeader : List Nat → Option (Nat × List Nat)
  | [] => none
  | b :: rest =>
    if 0x90 ≤ b ∧ b ≤ 0x9f then some (b - 0x90, rest)
    else if b = 0xdc then
      match rest with
      | b1 :: b0 :: r => some (b1 * 256 + b0, r)
      | _ => none
    else if b = 0xdd then
      match rest with
      | b3 :: b2 :: b1 :: b0 :: r =>
        some (b3 * 2 ^ 24 + b2 * 2 ^ 16 + b1 * 2 ^ 8 + b0, r)
      | _ => none
    else none

/-- Parse exactly `n` MessagePack f32 values, returning their bit patterns and
the remaining bytes. -/
def parseF32s : Nat → List Nat → Option (List Nat × List Nat)
  | 0, rest => some ([], rest)
  | n + 1, bytes =>
    match bytes with
    | 0xca :: b3 :: b2 :: b1 :: b0 :: r =>
      match parseF32s n r with
      | some (vs, rest) =>
        some ((b3 * 2 ^ 24 + b2 * 2 ^ 16 + b1 * 2 ^ 8 + b0) :: vs, rest)
      | none => none
    | _ => none

/-- `rmp_serde::from_slice::<Vector>`: expect a one-element array holding an
array of f32 values; `none` models a deserialization error. -/
def decode (bytes : List Nat) : Option (List Nat) :=
  match parseHeader bytes with
  | some (outer, r1) =>
    if outer = 1 then
      match parseHeader r1 with
      | some (len, r2) =>
        match parseF32s len r2 with
        | some (vs, _) => some vs
        | none => none
      | none => none
    else none
  | none => none

theorem parseHeader_arrayHeader (n : Nat) (rest : List Nat) (h : n < 2 ^ 32) :
    parseHeader (arrayHeader n ++ rest) = some (n, rest) := by
  by_cases h16 : n < 16
  · have hb : 0x90 ≤ 0x90 + n ∧ 0x90 + n ≤ 0x9f := by omega
    simp only [arrayHeader, if_pos h16, List.cons_append, List.nil_append, parseHeader,
      if_pos hb, Option.some.injEq, Prod.mk.injEq, and_true]
    omega
  · by_cases h65536 : n < 2 ^ 16
    · simp only [arrayHeader, if_neg h16, if_pos h65536, beBytes2, List.cons_append,
        List.nil_append, parseHeader]
      norm_num
      omega
    · simp only [arrayHeader, if_neg h16, if_neg h65536, beBytes4, List.cons_append,
        List.nil_append, parseHeader]
      norm_num
      omega

theorem parseF32s_flatten (v : List Nat) (rest : List Nat)
    (h : ∀ x ∈ v, x < 2 ^ 32) :
    parseF32s v.length ((v.map encodeF32).flatten ++ rest) = some (v, rest) := by
  induction v with
  | nil => rfl
  | cons x xs ih =>
    have hx : x < 2 ^ 32 := h x (List.mem_cons_self x xs)
    have hxs : ∀ y ∈ xs, y < 2 ^ 32 := fun y hy => h y (List.mem_cons_of_mem x hy)
    show parseF32s (xs.length + 1)
      (((0xca :: beBytes4 x) ++ (xs.map encodeF32).flatten) ++ rest) = some (x :: xs, rest)
    rw [List.append_assoc]
    show parseF32s (xs.length + 1)
      (0xca :: x / 2 ^ 24 % 256 :: x / 2 ^ 16 % 256 :: x / 2 ^ 8 % 256 :: x % 256 ::
        ((xs.map encodeF32).flatten ++ rest)) = some (x :: xs, rest)
    simp only [parseF32s, ih hxs, Option.some.injEq, Prod.mk.injEq, List.cons.injEq,
      and_true]
    omega

/-- Round trip of the record codec: decoding the encoded bytes of any vector
of valid 32-bit patterns returns the vector unchanged. -/
theorem decode_encode (v : List Nat) (h : ∀ x ∈ v, x < 2 ^ 32)
    (hlen : v.length < 2 ^ 32) :
    decode (encode v) = some v := by
  unfold encode decode
  rw [List.append_assoc]
  rw [show ((v.map encodeF32).flatten : List Nat) =
    (v.map encodeF32).flatten ++ [] from (List.append_nil _).symm]
  simp only [parseHeader_arrayHeader 1 _ (by norm_num : (1 : Nat) < 2 ^ 32),
    parseHeader_arrayHeader v.length _ hlen, parseF32s_flatten v [] h,
    if_true]

/-! ### Similarity kernels

Both kernels are transcribed over exact rational arithmetic; the square-root
function is an explicit parameter, so all theorems hold for any square-root
implementation.  Components are read with `List.getD i 0`, which agrees with
the Rust indexing `a[i]` for every index below the truncated length. -/

/-- `scalar_cosine_similarity` (lib.rs:359): one loop over the first
`min(len a, len b)` components accumulating the dot product and both squared
norms, returning 0 when either norm is zero. -/
def scalar_cosine_similarity (sqrt : ℚ → ℚ) (a b : List ℚ) : ℚ :=
  let len := min a.length b.length
  let dot := ∑ i ∈ Finset.range len, a.getD i 0 * b.getD i 0
  let norm_a := ∑ i ∈ Finset.range len, a.getD i 0 * a.getD i 0
  let norm_b := ∑ i ∈ Finset.range len, b.getD i 0 * b.getD i 0
  if norm_a = 0 ∨ norm_b = 0 then 0
  else dot / (sqrt norm_a * sqrt norm_b)

/-- `simd_cosine_similarity` (lib.rs:312): the SIMD loop accumulates the same
three quantities in blocks of 8 lanes over the first `len / 8 * 8` components,
then a scalar remainder loop handles the rest; the guard and division are as
in the scalar path. -/
def simd_cosine_similarity (sqrt : ℚ → ℚ) (a b : List ℚ) : ℚ :=
  let len := min a.length b.length
  let simd_len := len / 8 * 8
  let dot := (∑ i ∈ Finset.range (len / 8), ∑ j ∈ Finset.range 8,
      a.getD (8 * i + j) 0 * b.getD (8 * i + j) 0) +
    ∑ i ∈ Finset.Ico simd_len len, a.getD i 0 * b.getD i 0
  let norm_a := (∑ i ∈ Finset.range (len / 8), ∑ j ∈ Finset.range 8,
      a.getD (8 * i + j) 0 * a.getD (8 * i + j) 0) +
    ∑ i ∈ Finset.Ico simd_len len, a.getD i 0 * a.getD i 0
  let norm_b := (∑ i ∈ Finset.range (len / 8), ∑ j ∈ Finset.range 8,
      b.getD (8 * i + j) 0 * b.getD (8 * i + j) 0) +
    ∑ i ∈ Finset.Ico simd_len len, b.getD i 0 * b.getD i 0
  if norm_a = 0 ∨ norm_b = 0 then 0
  else dot / (sqrt norm_a * sqrt norm_b)

theorem sum_blocks (f : ℕ → ℚ) (n : ℕ) :
    ∑ i ∈ Finset.range n, ∑ j ∈ Finset.range 8, f (8 * i + j) =
      ∑ i ∈ Finset.range (8 * n), f i := by
  induction n with
  | zero => simp
  | succ n ih =>
    rw [Finset.sum_range_succ, ih, Nat.mul_succ]
    have htail : ∑ i ∈ Finset.Ico (8 * n) (8 * n + 8), f i
        = ∑ j ∈ Finset.range 8, f (8 * n + j) := by
      rw [Finset.sum_Ico_eq_sum_range]
      simp
    rw [← htail, Finset.range_eq_Ico]
    exact Finset.sum_Ico_consecutive f (Nat.zero_le (8 * n)) (Nat.le_add_right (8 * n) 8)

theorem blocked_sum_eq (f : ℕ → ℚ) (len : ℕ) :
    (∑ i ∈ Finset.range (len / 8), ∑ j ∈ Finset.range 8, f (8 * i + j)) +
      ∑ i ∈ Finset.Ico (len / 8 * 8) len, f i = ∑ i ∈ Finset.range len, f i := by
  rw [sum_blocks, Nat.mul_comm 8 (len / 8), Finset.range_eq_Ico]
  exact Finset.sum_Ico_consecutive f (Nat.zero_le _) (Nat.div_mul_le_self len 8)

/-- In exact arithmetic the blocked accumulation and the scalar accumulation
compute the same sums, hence the same similarity. -/
theorem simd_eq_scalar (sqrt : ℚ → ℚ) (a b : List ℚ) :
    simd_cosine_similarity sqrt a b = scalar_cosine_similarity sqrt a b := by
  simp only [simd_cosine_similarity, scalar_cosine_similarity]
  rw [blocked_sum_eq (fun k => a.getD k 0 * b.getD k 0) (min a.length b.length),
    blocked_sum_eq (fun k => a.getD k 0 * a.getD k 0) (min a.length b.length),
    blocked_sum_eq (fun k => b.getD k 0 * b.getD k 0) (min a.length b.length)]

/-! ### The store -/

/-- A row of the SQLite table `vectors`: `(id, embedding, metadata)`.  The
`created_at` column is never read by any operation and is omitted. -/
structure Row where
  id : String
  embedding : List Nat
  metadata : String
deriving DecidableEq

/-- The error taxonomy of `VectorDBError` reachable in the embedding:
`Serialization` and `InvalidDimension { expected, got }`.  The `Sqlite` and
`Io` variants only arise from storage-engine faults, which the embedding does
not inject. -/
inductive DBError where
  | serialization : DBError
  | invalidDimension (expected got : Nat) : DBError
deriving DecidableEq

/-- `VectorDB`: the table contents and the `dimension : Option<usize>` field. -/
structure VectorDB where
  rows : List Row
  dimension : Option Nat
deriving DecidableEq

/-- `VectorDB::new`: empty table, `dimension: None`. -/
def VectorDB.new : VectorDB :=
  ⟨[], none⟩

/-- The dimension-consistency check at the top of `VectorDB::insert`
(lib.rs:203): an error when a dimension is recorded and differs from the
vector's length. -/
def dimCheck (dimension : Option Nat) (n : Nat) : Option DBError :=
  match dimension with
  | some dim => if n ≠ dim then some (.invalidDimension dim n) else none
  | none => none

/-- `VectorDB::insert` (lib.rs:201): dimension check, then encode, then
`INSERT OR REPLACE` keyed on `id` (any existing row with that id is replaced).
Note the source never assigns `self.dimension`, so the field is returned
unchanged. -/
def VectorDB.insert (db : VectorDB) (i : String) (vector : List Nat)
    (metadata : String) : Except DBError VectorDB :=
  match dimCheck db.dimension vector.length with
  | some e => .error e
  | none =>
    .ok ⟨db.rows.filter (fun r => r.id != i) ++ [⟨i, encode vector, metadata⟩],
      db.dimension⟩

/-- `VectorDB::get` (lib.rs:286): the row with the given id, its embedding
decoded; a decode failure is a `Serialization` error, a missing row is
`Ok(None)`. -/
def VectorDB.get (db : VectorDB) (i : String) :
    Except DBError (Option (List Nat × String)) :=
  match db.rows.find? (fun r => r.id == i) with
  | none => .ok none
  | some r =>
    match decode r.embedding with
    | some v => .ok (some (v, r.metadata))
    | none => .error .serialization

/-- `VectorDB::delete` (lib.rs:265): `DELETE FROM vectors WHERE id = ?1`;
always succeeds. -/
def VectorDB.delete (db : VectorDB) (i : String) : VectorDB :=
  ⟨db.rows.filter (fun r => r.id != i), db.dimension⟩

/-- `VectorDB::count` (lib.rs:272): `SELECT COUNT(*)`. -/
def VectorDB.count (db : VectorDB) : Nat :=
  db.rows.length

/-- `VectorDB::clear` (lib.rs:279): `DELETE FROM vectors`; the `dimension`
field is untouched. -/
def VectorDB.clear (db : VectorDB) : VectorDB :=
  ⟨[], db.dimension⟩

/-! ### Search -/

/-- A search result: `(id, score, metadata)`. -/
structure SearchResult where
  id : String
  score : ℚ
  metadata : String
deriving DecidableEq

/-- The descending-score ordering realized by the comparator
`b.score.partial_cmp(&a.score)` passed to `sort_by` (lib.rs:258). -/
def scoreGE (x y : SearchResult) : Prop :=
  y.score ≤ x.score

instance : DecidableRel scoreGE :=
  fun x y => inferInstanceAs (Decidable (y.score ≤ x.score))

instance : IsTotal SearchResult scoreGE :=
  ⟨fun x y => le_total y.score x.score⟩

instance : IsTrans SearchResult scoreGE :=
  ⟨fun _ _ _ h1 h2 => le_trans h2 h1⟩

/-- The row-scoring stage of `VectorDB::search` (lib.rs:236): decode each
row's embedding, silently dropping rows that fail to decode, and score the
decoded vector against the query. -/
def scoreRows (sqrt : ℚ → ℚ) (toVal : Nat → ℚ) (query : List ℚ)
    (rows : List Row) : List SearchResult :=
  rows.filterMap (fun r =>
    match decode r.embedding with
    | some v =>
      some ⟨r.id, scalar_cosine_similarity sqrt query (v.map toVal), r.metadata⟩
    | none => none)

/-- `VectorDB::search` (lib.rs:232): score every row, sort by score
descending, truncate to the first `k`.  `toVal` interprets a stored 32-bit
pattern as its numeric value; the kernel is the scalar transcription
(`simd_eq_scalar` shows the lane-parallel one computes the same value). -/
def VectorDB.search (sqrt : ℚ → ℚ) (toVal : Nat → ℚ) (db : VectorDB)
    (query : List ℚ) (k : Nat) : List SearchResult :=
  ((scoreRows sqrt toVal query db.rows).insertionSort scoreGE).take k

/-- The number of rows whose stored embedding decodes successfully. -/
def decodableCount (db : VectorDB) : Nat :=
  (db.rows.filter (fun r => (decode r.embedding).isSome)).length

theorem scoreRows_length (sqrt : ℚ → ℚ) (toVal : Nat → ℚ) (query : List ℚ)
    (rows : List Row) :
    (scoreRows sqrt toVal query rows).length
      = (rows.filter (fun r => (decode r.embedding).isSome)).length := by
  induction rows with
  | nil => rfl
  | cons r rs ih =>
    simp only [scoreRows, List.filterMap_cons, List.filter_cons] at ih ⊢
    cases hd : decode r.embedding with
    | none => simpa [hd] using ih
    | some v => simpa [hd] using ih

theorem scoreRows_keys (sqrt : ℚ → ℚ) (toVal : Nat → ℚ) (query : List ℚ)
    (rows : List Row) :
    (scoreRows sqrt toVal query rows).map (fun res => (res.id, res.metadata))
      = (rows.filter (fun r => (decode r.embedding).isSome)).map
          (fun r => (r.id, r.metadata)) := by
  induction rows with
  | nil => rfl
  | cons r rs ih =>
    simp only [scoreRows, List.filterMap_cons, List.filter_cons] at ih ⊢
    cases hd : decode r.embedding with
    | none => simpa [hd] using ih
    | some v => simpa [hd] using ih

/-! ### The similarity algorithm as the spec words it -/

/-- Spec §4.1: the dot product over the common prefix of the two vectors;
`zipWith` truncates to the shorter length, so extra components of the longer
vector are ignored. -/
def specDot (a b : List ℚ) : ℚ :=
  (List.zipWith (· * ·) a b).sum

/-- Spec §4.1: squared norm of `a` truncated to the common prefix length. -/
def specNormSq (a b : List ℚ) : ℚ :=
  ((a.take (min a.length b.length)).map (fun x => x * x)).sum

/-- Spec §4.1: cosine similarity as specified — `dot(a,b) / (‖a‖·‖b‖)` over
`min(len(a), len(b))` components, and exactly 0 when either truncated norm is
exactly zero. -/
def specCosine (sqrt : ℚ → ℚ) (a b : List ℚ) : ℚ :=
  if specNormSq a b = 0 ∨ specNormSq b a = 0 then 0
  else specDot a b / (sqrt (specNormSq a b) * sqrt (specNormSq b a))

theorem zipWith_mul_sum (a b : List ℚ) :
    (List.zipWith (· * ·) a b).sum
      = ∑ i ∈ Finset.range (min a.length b.length), a.getD i 0 * b.getD i 0 := by
  induction a generalizing b with
  | nil => simp
  | cons x xs ih =>
    cases b with
    | nil => simp
    | cons y ys =>
      rw [List.zipWith_cons_cons, List.sum_cons, ih ys, List.length_cons,
        List.length_cons, Nat.succ_min_succ, Finset.sum_range_succ']
      simp [add_comm]

theorem take_map_sq_sum (a : List ℚ) (n : ℕ) (h : n ≤ a.length) :
    ((a.take n).map (fun x => x * x)).sum
      = ∑ i ∈ Finset.range n, a.getD i 0 * a.getD i 0 := by
  induction a generalizing n with
  | nil =>
    have : n = 0 := by simpa using h
    simp [this]
  | cons x xs ih =>
    cases n with
    | zero => simp
    | succ m =>
      rw [List.take_succ_cons, List.map_cons, List.sum_cons,
        ih m (by simpa using h), Finset.sum_range_succ']
      simp [add_comm]

theorem scalar_eq_spec (sqrt : ℚ → ℚ) (a b : List ℚ) :
    scalar_cosine_similarity sqrt a b = specCosine sqrt a b := by
  have hd : specDot a b
      = ∑ i ∈ Finset.range (min a.length b.length), a.getD i 0 * b.getD i 0 :=
    zipWith_mul_sum a b
  have hna : specNormSq a b
      = ∑ i ∈ Finset.range (min a.length b.length), a.getD i 0 * a.getD i 0 :=
    take_map_sq_sum a _ (Nat.min_le_left _ _)
  have hnb : specNormSq b a
      = ∑ i ∈ Finset.range (min a.length b.length), b.getD i 0 * b.getD i 0 := by
    simp only [specNormSq, Nat.min_comm b.length a.length]
    exact take_map_sq_sum b _ (Nat.min_le_right _ _)
  simp only [scalar_cosine_similarity, specCosine, hd, hna, hnb]

theorem scalar_symm (sqrt : ℚ → ℚ) (a b : List ℚ) :
    scalar_cosine_similarity sqrt a b = scalar_cosine_similarity sqrt b a := by
  simp only [scalar_cosine_similarity, Nat.min_comm b.length a.length]
  have hd : (∑ i ∈ Finset.range (min a.length b.length), b.getD i 0 * a.getD i 0)
      = ∑ i ∈ Finset.range (min a.length b.length), a.getD i 0 * b.getD i 0 :=
    Finset.sum_congr rfl fun i _ => mul_comm _ _
  rw [hd]
  set na := ∑ i ∈ Finset.range (min a.length b.length), a.getD i 0 * a.getD i 0
  set nb := ∑ i ∈ Finset.range (min a.length b.length), b.getD i 0 * b.getD i 0
  rcases eq_or_ne na 0 with hna | hna
  · rw [if_pos (Or.inl hna), if_pos (Or.inr hna)]
  · rcases eq_or_ne nb 0 with hnb | hnb
    · rw [if_pos (Or.inr hnb), if_pos (Or.inl hnb)]
    · rw [if_neg (not_or.mpr ⟨hna, hnb⟩), if_neg (not_or.mpr ⟨hnb, hna⟩),
        mul_comm (sqrt na) (sqrt nb)]

/-! ### Store lemmas -/

theorem insert_ok_rows (db : VectorDB) (i : String) (v : List Nat) (m : String)
    (db' : VectorDB) (h : db.insert i v m = .ok db') :
    db' = ⟨db.rows.filter (fun r => r.id != i) ++ [⟨i, encode v, m⟩],
      db.dimension⟩ := by
  unfold VectorDB.insert at h
  cases hdc : dimCheck db.dimension v.length with
  | some e =>
    rw [hdc] at h
    exact absurd h (by simp)
  | none =>
    rw [hdc] at h
    cases h
    rfl

theorem get_of_upserted (db : VectorDB) (i : String) (v : List Nat) (m : String)
    (hv : ∀ x ∈ v, x < 2 ^ 32) (hlen : v.length < 2 ^ 32) :
    (VectorDB.mk (db.rows.filter (fun r => r.id != i) ++ [⟨i, encode v, m⟩])
      db.dimension).get i = .ok (some (v, m)) := by
  have hfind : (db.rows.filter (fun r => r.id != i)).find?
      (fun r => r.id == i) = none := by
    rw [List.find?_eq_none]
    intro r hr
    have hne := List.of_mem_filter hr
    simp only [bne_iff_ne, ne_eq] at hne
    simp [hne]
  have hfind2 : List.find? (fun r => r.id == i) [(⟨i, encode v, m⟩ : Row)]
      = some ⟨i, encode v, m⟩ :=
    List.find?_cons_of_pos _ (by simp)
  simp only [VectorDB.get, List.find?_append, hfind, Option.none_or, hfind2,
    decode_encode v hv hlen]

theorem filter_upserted_ne (rows : List Row) (i : String) (v : List Nat)
    (m : String) :
    (rows.filter (fun r => r.id != i) ++ [(⟨i, encode v, m⟩ : Row)]).filter
        (fun r => r.id != i)
      = rows.filter (fun r => r.id != i) := by
  rw [List.filter_append, List.filter_filter]
  simp [Bool.and_self]

theorem filter_upserted_eq_length (rows : List Row) (i : String) (v : List Nat)
    (m : String) :
    ((rows.filter (fun r => r.id != i) ++ [(⟨i, encode v, m⟩ : Row)]).filter
        (fun r => r.id == i)).length = 1 := by
  rw [List.filter_append, List.filter_filter]
  simp [bne]

theorem delete_count_lemma (rows : List Row) (i : String)
    (hnd : (rows.map Row.id).Nodup) (hmem : i ∈ rows.map Row.id) :
    (rows.filter (fun r => r.id != i)).length + 1 = rows.length := by
  induction rows with
  | nil => simp at hmem
  | cons r rs ih =>
    rw [List.map_cons, List.nodup_cons] at hnd
    rw [List.map_cons] at hmem
    rcases List.mem_cons.mp hmem with heq | hmem2
    · have hall : ∀ x ∈ rs, (x.id != i) = true := by
        intro x hx
        have hxm : x.id ∈ rs.map Row.id := List.mem_map_of_mem Row.id hx
        have hne : x.id ≠ r.id := by
          intro hcontr
          exact hnd.1 (by rw [← hcontr]; exact hxm)
        simp only [bne_iff_ne, ne_eq]
        rw [heq]
        exact hne
      rw [List.filter_cons_of_neg (by simp [heq.symm]), List.filter_eq_self.mpr hall]
      simp
    · have hne : r.id ≠ i := by
        intro hcontr
        exact hnd.1 (by rw [hcontr]; exact hmem2)
      rw [List.filter_cons_of_pos (by simp [hne])]
      have hih := ih hnd.2 hmem2
      simp only [List.length_cons]
      omega

/-! ### Claims -/

/-- C1: the claimed behavior — an insert whose dimension differs from the one
established by the first successful insert fails with `DimensionMismatch` —
does not hold in the code: `VectorDB::new` sets `dimension` to `None` and
`insert` never assigns it, so the check at lib.rs:203 never fires.  Priming a
fresh store with a 3-component vector and then inserting a 4-component vector
under a new id succeeds and writes a second record. -/
theorem mismatched_dim_insert_accepted :
    VectorDB.new.insert "a" [1, 2, 3] "m"
      = .ok ⟨[⟨"a", encode [1, 2, 3], "m"⟩], none⟩ ∧
    (VectorDB.mk [⟨"a", encode [1, 2, 3], "m"⟩] none).insert "b" [1, 2, 3, 4] "m"
      = .ok ⟨[⟨"a", encode [1, 2, 3], "m"⟩, ⟨"b", encode [1, 2, 3, 4], "m"⟩],
          none⟩ ∧
    (VectorDB.mk [⟨"a", encode [1, 2, 3], "m"⟩,
        ⟨"b", encode [1, 2, 3, 4], "m"⟩] none).count = 2 :=
  ⟨rfl, rfl, rfl⟩

/-- C2: the claimed dimension state machine — `Unset` at construction,
`Fixed(n)` entered by the first successful insert — does not hold in the
code: after the first successful insert the `dimension` field is still
`none` (the `Fixed` state is never entered, since `insert` takes `&self`
and never writes the field).  The `clear` part of the claim (all records
removed, count 0, `dimension` untouched) does hold. -/
theorem dimension_stays_unset :
    VectorDB.new.dimension = none ∧
    (∀ (db : VectorDB) (i : String) (v : List Nat) (m : String)
      (db' : VectorDB), db.insert i v m = .ok db' →
        db'.dimension = db.dimension) ∧
    VectorDB.new.insert "a" [1, 2, 3] "m"
      = .ok ⟨[⟨"a", encode [1, 2, 3], "m"⟩], none⟩ ∧
    (VectorDB.mk [⟨"a", encode [1, 2, 3], "m"⟩] none).dimension = none ∧
    (VectorDB.mk [⟨"a", encode [1, 2, 3], "m"⟩] none).clear = ⟨[], none⟩ ∧
    (VectorDB.mk [⟨"a", encode [1, 2, 3], "m"⟩] none).clear.count = 0 :=
  ⟨rfl, fun db i v m db' h => by rw [insert_ok_rows db i v m db' h],
    rfl, rfl, rfl, rfl⟩

/-- Witness for C2 at the first insert into a fresh store: the resulting
dimension field equals the fresh store's, i.e. it is still unset. -/
theorem dimension_stays_unset_witness :
    (VectorDB.mk [⟨"a", encode [1, 2, 3], "m"⟩] none).dimension
      = VectorDB.new.dimension :=
  dimension_stays_unset.2.1 VectorDB.new "a" [1, 2, 3] "m"
    (VectorDB.mk [⟨"a", encode [1, 2, 3], "m"⟩] none) rfl

/-- C3: the record codec round-trips exactly — decoding the encoded bytes of
any vector returns the same components bit for bit — and a decode of corrupt
bytes (`0xc1` is not valid MessagePack) yields a decoding failure, which
`get` surfaces as a `Serialization` error rather than a crash. -/
theorem codec_roundtrip_exact :
    (∀ v : List Nat, (∀ x ∈ v, x < 2 ^ 32) → v.length < 2 ^ 32 →
      decode (encode v) = some v) ∧
    decode [0xc1] = none ∧
    (VectorDB.mk [⟨"x", [0xc1], "m"⟩] none).get "x" = .error .serialization :=
  ⟨decode_encode, rfl, rfl⟩

/-- Witness for C3 at the spec's example vector `[1.0, 2.0, 3.0]` (bit
patterns `0x3f800000`, `0x40000000`, `0x40400000`). -/
theorem codec_roundtrip_exact_witness :
    decode (encode [1065353216, 1073741824, 1077936128])
      = some [1065353216, 1073741824, 1077936128] :=
  codec_roundtrip_exact.1 [1065353216, 1073741824, 1077936128]
    (by decide) (by decide)

/-- C4: after a successful `insert(id, v, m)`, `get(id)` returns exactly
`Some((v, m))`; exactly one record with that id exists afterwards (upsert,
not append), and all records under other ids are unchanged. -/
theorem insert_get_roundtrip (db : VectorDB) (i : String) (v : List Nat)
    (m : String) (db' : VectorDB) (hv : ∀ x ∈ v, x < 2 ^ 32)
    (hlen : v.length < 2 ^ 32) (hins : db.insert i v m = .ok db') :
    db'.get i = .ok (some (v, m)) ∧
    (db'.rows.filter (fun r => r.id == i)).length = 1 ∧
    db'.rows.filter (fun r => r.id != i) = db.rows.filter (fun r => r.id != i) := by
  have hdb' := insert_ok_rows db i v m db' hins
  subst hdb'
  exact ⟨get_of_upserted db i v m hv hlen,
    filter_upserted_eq_length db.rows i v m,
    filter_upserted_ne db.rows i v m⟩

/-- Witness for C4: insert `[1.0, 2.0, 3.0]` under `doc1` into a fresh store,
then get it back. -/
theorem insert_get_roundtrip_witness :
    (VectorDB.mk [⟨"doc1", encode [1065353216, 1073741824, 1077936128],
        "meta"⟩] none).get "doc1"
      = .ok (some ([1065353216, 1073741824, 1077936128], "meta")) :=
  (insert_get_roundtrip VectorDB.new "doc1" [1065353216, 1073741824, 1077936128]
    "meta"
    (VectorDB.mk [⟨"doc1", encode [1065353216, 1073741824, 1077936128],
      "meta"⟩] none)
    (by decide) (by decide) rfl).1

/-- C5: `search(query, k)` returns at most `k` results, sorted by score
descending; `k = 0` yields the empty sequence, and any `k` at least the
number of decodable rows yields one result per decodable row. -/
theorem search_topk_sorted (sqrt : ℚ → ℚ) (toVal : Nat → ℚ) (db : VectorDB)
    (query : List ℚ) (k : Nat) :
    (VectorDB.search sqrt toVal db query k).length ≤ k ∧
    List.Sorted scoreGE (VectorDB.search sqrt toVal db query k) ∧
    (k = 0 → VectorDB.search sqrt toVal db query k = []) ∧
    (decodableCount db ≤ k →
      (VectorDB.search sqrt toVal db query k).length = decodableCount db) := by
  refine ⟨?_, ?_, ?_, ?_⟩
  · simp only [VectorDB.search, List.length_take]
    exact Nat.min_le_left _ _
  · exact List.Pairwise.sublist (List.take_sublist k _)
      (List.sorted_insertionSort scoreGE _)
  · intro hk
    simp [VectorDB.search, hk]
  · intro hk
    have hlen : ((scoreRows sqrt toVal query db.rows).insertionSort
        scoreGE).length = decodableCount db := by
      rw [(List.perm_insertionSort scoreGE _).length_eq, scoreRows_length]
      rfl
    simp only [VectorDB.search, List.length_take, hlen]
    exact Nat.min_eq_right hk

/-- Witness for C5 at a store with one decodable and one corrupt row. -/
theorem search_topk_sorted_witness :
    VectorDB.search (fun q => q) (fun n => (n : ℚ))
      (VectorDB.mk [⟨"a", encode [1], "m"⟩, ⟨"c", [0xc1], "n"⟩] none) [1] 0
      = [] ∧
    (VectorDB.search (fun q => q) (fun n => (n : ℚ))
        (VectorDB.mk [⟨"a", encode [1], "m"⟩, ⟨"c", [0xc1], "n"⟩] none) [1]
        3).length
      = decodableCount
          (VectorDB.mk [⟨"a", encode [1], "m"⟩, ⟨"c", [0xc1], "n"⟩] none) :=
  ⟨(search_topk_sorted (fun q => q) (fun n => (n : ℚ))
      (VectorDB.mk [⟨"a", encode [1], "m"⟩, ⟨"c", [0xc1], "n"⟩] none) [1]
      0).2.2.1 rfl,
    (search_topk_sorted (fun q => q) (fun n => (n : ℚ))
      (VectorDB.mk [⟨"a", encode [1], "m"⟩, ⟨"c", [0xc1], "n"⟩] none) [1]
      3).2.2.2 (by decide)⟩

/-- C6: both similarity kernels compute exactly the specified function —
`dot(a,b) / (‖a‖·‖b‖)` over the first `min(len(a), len(b))` components, with
extra components of the longer vector ignored, and exactly 0 whenever either
truncated norm is exactly zero (no division by zero). -/
theorem cosine_kernel_matches_spec (sqrt : ℚ → ℚ) (a b : List ℚ) :
    scalar_cosine_similarity sqrt a b = specCosine sqrt a b ∧
    simd_cosine_similarity sqrt a b = specCosine sqrt a b :=
  ⟨scalar_eq_spec sqrt a b,
    (simd_eq_scalar sqrt a b).trans (scalar_eq_spec sqrt a b)⟩

/-- C7: the lane-parallel and scalar implementations agree within `1e-4` on
every pair of equal-length vectors (in the exact-arithmetic embedding the two
accumulation orders give identical sums, so the difference is zero). -/
theorem simd_scalar_agree (sqrt : ℚ → ℚ) (a b : List ℚ)
    (h : a.length = b.length) :
    |simd_cosine_similarity sqrt a b - scalar_cosine_similarity sqrt a b|
      ≤ 1 / 10000 := by
  rw [simd_eq_scalar, sub_self, abs_zero]
  norm_num

/-- Witness for C7 at a concrete pair of equal-length vectors. -/
theorem simd_scalar_agree_witness :
    |simd_cosine_similarity (fun q => q) [1, 2, 3] [4, 5, 6]
      - scalar_cosine_similarity (fun q => q) [1, 2, 3] [4, 5, 6]|
      ≤ 1 / 10000 :=
  simd_scalar_agree (fun q => q) [1, 2, 3] [4, 5, 6] rfl

/-- C8: search never fails on undecodable rows — with `k` at least the row
count, the results are exactly (a permutation of) the id/metadata pairs of
the rows whose embedding decodes; rows that fail to decode are silently
omitted while every decodable row is still returned. -/
theorem search_skips_undecodable (sqrt : ℚ → ℚ) (toVal : Nat → ℚ)
    (db : VectorDB) (query : List ℚ) (k : Nat) (h : db.rows.length ≤ k) :
    List.Perm
      ((VectorDB.search sqrt toVal db query k).map
        (fun res => (res.id, res.metadata)))
      ((db.rows.filter (fun r => (decode r.embedding).isSome)).map
        (fun r => (r.id, r.metadata))) := by
  have hlen : ((scoreRows sqrt toVal query db.rows).insertionSort
      scoreGE).length ≤ k := by
    rw [(List.perm_insertionSort scoreGE _).length_eq]
    exact le_trans (List.length_filterMap_le _ _) h
  unfold VectorDB.search
  rw [List.take_of_length_le hlen, ← scoreRows_keys sqrt toVal query db.rows]
  exact (List.perm_insertionSort scoreGE _).map _

/-- Witness for C8 at a store with one decodable and one corrupt row. -/
theorem search_skips_undecodable_witness :
    List.Perm
      ((VectorDB.search (fun q => q) (fun n => (n : ℚ))
          (VectorDB.mk [⟨"good", encode [1], "m"⟩, ⟨"bad", [0xc1], "n"⟩] none)
          [1] 2).map (fun res => (res.id, res.metadata)))
      (((VectorDB.mk [⟨"good", encode [1], "m"⟩, ⟨"bad", [0xc1], "n"⟩]
          none).rows.filter (fun r => (decode r.embedding).isSome)).map
        (fun r => (r.id, r.metadata))) :=
  search_skips_undecodable (fun q => q) (fun n => (n : ℚ))
    (VectorDB.mk [⟨"good", encode [1], "m"⟩, ⟨"bad", [0xc1], "n"⟩] none)
    [1] 2 (by decide)

/-- C9: `delete(id)` removes exactly the record with that id when present
(count drops by exactly 1, all other records remain, nothing else is
removed), and is a successful no-op when no record has that id. -/
theorem delete_semantics (db : VectorDB) (i : String) :
    ((db.rows.map Row.id).Nodup → i ∈ db.rows.map Row.id →
      (db.delete i).count + 1 = db.count) ∧
    (∀ r ∈ db.rows, r.id ≠ i → r ∈ (db.delete i).rows) ∧
    (∀ r ∈ (db.delete i).rows, r ∈ db.rows ∧ r.id ≠ i) ∧
    (i ∉ db.rows.map Row.id → db.delete i = db) := by
  refine ⟨fun hnd hmem => delete_count_lemma db.rows i hnd hmem, ?_, ?_, ?_⟩
  · intro r hr hne
    exact List.mem_filter.mpr ⟨hr, by simp [hne]⟩
  · intro r hr
    obtain ⟨h1, h2⟩ := List.mem_filter.mp hr
    exact ⟨h1, by simpa using h2⟩
  · intro hnot
    obtain ⟨rows, dim⟩ := db
    simp only [VectorDB.delete, VectorDB.mk.injEq]
    refine ⟨List.filter_eq_self.mpr ?_, trivial⟩
    intro r hr
    simp only [bne_iff_ne, ne_eq, decide_not]
    intro hcontr
    exact hnot (hcontr ▸ List.mem_map_of_mem Row.id hr)

/-- Witness for C9: deleting the present id `a` drops the count from 1 to 0;
deleting the absent id `b` leaves the store unchanged. -/
theorem delete_semantics_witness :
    ((VectorDB.mk [⟨"a", [0xc1], "m"⟩] none).delete "a").count + 1
        = (VectorDB.mk [⟨"a", [0xc1], "m"⟩] none).count ∧
    (VectorDB.mk [⟨"a", [0xc1], "m"⟩] none).delete "b"
        = VectorDB.mk [⟨"a", [0xc1], "m"⟩] none :=
  ⟨(delete_semantics (VectorDB.mk [⟨"a", [0xc1], "m"⟩] none) "a").1
      (by decide) (by decide),
    (delete_semantics (VectorDB.mk [⟨"a", [0xc1], "m"⟩] none) "b").2.2.2
      (by decide)⟩

/-- C10: cosine similarity is symmetric in its two arguments, for the scalar
and the lane-parallel implementation alike: the per-component products
commute, the accumulation order is identical, and the two norms enter the
final division symmetrically. -/
theorem cosine_symmetric (sqrt : ℚ → ℚ) (a b : List ℚ) :
    scalar_cosine_similarity sqrt a b = scalar_cosine_similarity sqrt b a ∧
    simd_cosine_similarity sqrt a b = simd_cosine_similarity sqrt b a :=
  ⟨scalar_symm sqrt a b,
    (simd_eq_scalar sqrt a b).trans
      ((scalar_symm sqrt a b).trans (simd_eq_scalar sqrt b a).symm)⟩

end AgentDB
